import Mathlib

/-!
Verification development for `src/core/tsv7_ult_quotes_to_origl_quotes.js`
(repository `unfoldingWord/tsv7-ult-quotes-to-origl-quotes`).

The JavaScript core is embedded shallowly:

* pure string manipulation (regex splits/replacements used by the source)
  is modelled by structurally recursive functions over `List Char`;
* JavaScript values that may be `undefined` are modelled with `Option`;
* code paths on which the JavaScript throws an uncaught `TypeError`
  (aborting the whole invocation) are modelled by an `Option.none` result;
* the out-of-scope collaborators (document fetching, the Proskomma query,
  and the tabular row I/O) are modelled per §6 of the spec: token lookups
  become functions `String → Option (List Token)` keyed by `"chapter:verse"`,
  and the TSV serializer is modelled as the identity on `TSVRecord`
  (the spec states it preserves all fields verbatim).

All definitions are executable and structurally recursive, so concrete
runs evaluate inside `decide`/`rfl`.
-/

set_option autoImplicit false

namespace Tsv7

/-! ### Character classes used by the source's regexes -/

/-- Model of the JavaScript regex class `\s` (whitespace), used by
`xregexp.split(ULTSearchString, /[-\s־]/)`, `String.prototype.trim` and the
`\s*…\s*` tidy-up regex. -/
def isJSWS (c : Char) : Bool :=
  c.toNat ∈ [32, 9, 10, 11, 12, 13, 160, 5760, 8232, 8233, 8239, 8287, 12288, 65279]
    || (8192 ≤ c.toNat && c.toNat ≤ 8202)

/-- The sentence/quotation punctuation removed from each search word:
the source's `xregexp.replace(searchExpr, /["'“‘”’{}(),?:;.!]/, '', 'all')`.
Listed by codepoint: `"` `'` `“` `‘` `”` `’` `{` `}` `(` `)` `,` `?` `:` `;` `.` `!`. -/
def isQuotePunct (c : Char) : Bool :=
  c.toNat ∈ [34, 39, 8220, 8216, 8221, 8217, 123, 125, 40, 41, 44, 63, 58, 59, 46, 33]

/-- Separator class of `xregexp.split(ULTSearchString, /[-\s־]/)`:
ASCII hyphen, JS whitespace, and the Hebrew maqaf (U+05BE = 1470). -/
def searchSepChar (c : Char) : Bool :=
  c == '-' || isJSWS c || c.toNat == 1470

/-! ### Generic split / replace helpers (JS `String.prototype` semantics) -/

/-- Auxiliary for `splitWhen`: JS `split` on a single-character separator
keeps empty segments, and an empty input yields `[[]]`. -/
def splitWhenAux (p : Char → Bool) : List Char → List Char → List (List Char)
  | [], acc => [acc.reverse]
  | c :: rest, acc =>
    if p c then acc.reverse :: splitWhenAux p rest []
    else splitWhenAux p rest (c :: acc)

/-- JS `s.split(sep)` for a single-character (class) separator. -/
def splitWhen (p : Char → Bool) (l : List Char) : List (List Char) :=
  splitWhenAux p l []

/-- JS `s.split(c)` on a `String`, producing `String` pieces. -/
def jsSplitChar (ch : Char) (s : String) : List String :=
  (splitWhen (fun c => c == ch) s.data).map (fun l => ⟨l⟩)

/-- Does `l` start with `pat`? -/
def listStartsWith : List Char → List Char → Bool
  | [], _ => true
  | _ :: _, [] => false
  | p :: ps, c :: cs => p == c && listStartsWith ps cs

/-- Does `l` contain `pat` as a contiguous sublist?  Models JS
`String.prototype.indexOf(pat) !== -1`. -/
def containsSub (pat : List Char) : List Char → Bool
  | [] => listStartsWith pat []
  | c :: rest => listStartsWith pat (c :: rest) || containsSub pat rest

/-- `String` wrapper for `containsSub`: `s.indexOf(pat) !== -1`. -/
def containsSubStr (s pat : String) : Bool :=
  containsSub pat.data s.data

/-- Auxiliary for `replaceFirst`: replace the first occurrence of `pat`. -/
def replaceFirstAux (pat rep : List Char) : List Char → List Char
  | [] => if listStartsWith pat [] then rep else []
  | c :: rest =>
    if listStartsWith pat (c :: rest) then rep ++ (c :: rest).drop pat.length
    else c :: replaceFirstAux pat rep rest

/-- JS `s.replace(pat, rep)` with a *string* pattern: replaces only the
first occurrence (used by `tsvRecord.quote.replace('QUOTE_NOT_FOUND: ', '')`). -/
def replaceFirst (s pat rep : String) : String :=
  ⟨replaceFirstAux pat.data rep.data s.data⟩

/-- JS `String.prototype.trim`. -/
def jsTrim (s : String) : String :=
  ⟨((s.data.dropWhile isJSWS).reverse.dropWhile isJSWS).reverse⟩

/-- Drop leading literal spaces (the `' *'` part of the `/ *… */` regex). -/
def trimSpaceL (l : List Char) : List Char := l.dropWhile (fun c => c == ' ')

/-- Drop trailing literal spaces (the `' *'` part of the `/ *… */` regex). -/
def trimSpaceR (l : List Char) : List Char :=
  (l.reverse.dropWhile (fun c => c == ' ')).reverse

/-- Auxiliary for `upFirst`: uppercase the first ASCII lowercase letter. -/
def upFirstAux : List Char → List Char
  | [] => []
  | c :: rest =>
    if 97 ≤ c.toNat && c.toNat ≤ 122 then c.toUpper :: rest
    else c :: upFirstAux rest

/-- JS `q.replace(/([a-z])/, (match) => match.toUpperCase())`: only the first
ASCII lowercase letter is uppercased. -/
def upFirst (s : String) : String := ⟨upFirstAux s.data⟩

/-- Decimal value of a digit run (JS `parseInt` accumulation). -/
def digitsToNat (l : List Char) : Nat :=
  l.foldl (fun acc c => acc * 10 + (c.toNat - 48)) 0

/-- Model of JS `parseInt(s)` on the decimal inputs this program feeds it:
skip leading whitespace, optional sign, then a maximal digit run; `NaN`
(no digits) is `none`. -/
def parseIntJS (s : String) : Option Int :=
  let l := s.data.dropWhile isJSWS
  let isNeg := l.head? == some '-'
  let body := if l.head? == some '-' || l.head? == some '+' then l.tail else l
  let ds := body.takeWhile (fun c => c.isDigit)
  if ds.isEmpty then none
  else if isNeg then some (-(digitsToNat ds : Int)) else some (digitsToNat ds : Int)

/-- JS `Array.prototype.join(sep)`. -/
def joinSep (sep : String) : List String → String
  | [] => ""
  | [x] => x
  | x :: y :: ys => x ++ sep ++ joinSep sep (y :: ys)

/-! ### Data model -/

/-- A word token as delivered by the alignment query (`doAlignmentQuery`):
`payload`, `subType`, `position`, and the alignment `scopes`.  Used for both
the gloss (ULT) and original-language corpora. -/
structure Token where
  payload : String
  subType : String
  position : Nat
  scopes : List String
deriving DecidableEq, Repr

/-- A gloss token after the resolver's
`.filter((t) => t.subType === 'wordLike').map(({subType, position, ...rest}) => rest)`
step: only `payload` and `scopes` remain. -/
structure WTok where
  payload : String
  scopes : List String
deriving DecidableEq, Repr

/-- Modelled from the spec: `slimSourceTokens` (imported from
`../utils/tokens`, whose source is not included) reduces original-language
word tokens to payload-only records — spec §4.4: "pre-filtered to `wordLike`
tokens, in document order, reduced to payload-only". -/
structure SlimTok where
  payload : String
deriving DecidableEq, Repr

/-- Modelled from the spec (see `SlimTok`). -/
def slimSourceTokens (ts : List Token) : List SlimTok :=
  ts.map (fun t => ⟨t.payload⟩)

/-- The 3-tuples built by `searchULTWordRecords`:
(ULT word, follows-ellipsis flag, alignment scopes).  The third component is
`none` when the JS tuple never had a scopes field appended (the appending
loop ran out of ULT tokens), matching `scopesArray === undefined`. -/
abbrev Triple := String × Bool × Option (List String)

/-- One row of the TSV table.  Modelled from the spec: `parseTsvToObjects` /
`tsvRecordToString` (from `../utils/tsv`, not included in the sources) parse
and re-serialize rows preserving every field, so a serialized output row is
represented by the `TSVRecord` value itself; `rest` stands for the untouched
passthrough fields. -/
structure TSVRecord where
  ref : String
  quote : String
  occurrence : String
  id : String
  rest : List String
deriving DecidableEq, Repr

/-- Replace the `quote` field (the only field the core ever rewrites). -/
def setQuote (r : TSVRecord) (q : String) : TSVRecord := { r with quote := q }

/-- Result value of `origLFromGLQuote`: `{data: [...]}` or `{error: msg}`. -/
inductive JSResult where
  | data (words : List String)
  | error (msg : String)
deriving DecidableEq, Repr

/-- One entry of `quotesToTry`: a plain string variant or an
ellipsis-part list variant. -/
inductive QVar where
  | str (q : String)
  | parts (ps : List String)
deriving DecidableEq, Repr

/-- The verse-keyed token lookups that `doAlignmentQuery` builds
(`tokenLookup.uhb`/`tokenLookup.ugnt` and `tokenLookup.ult`, restricted to
the processed book).  A key is the `"chapter:verse"` string; `none` models a
missing entry (JS `undefined`). -/
structure Lookups where
  source : String → Option (List Token)
  ult : String → Option (List Token)

/-! ### The Gloss Matcher: `searchULTWordRecords` -/

/-- Per-word ellipsis handling of `searchULTWordRecords`: a (punctuation
stripped) search word containing `…` is split at it; the first part keeps
`followsEllipsis = false`, every later part gets `true`. -/
def tokenEll (l : List Char) : List (String × Bool) :=
  if l.contains '…' then
    match splitWhen (fun c => c == '…') l with
    | [] => []
    | p :: ps => (⟨p⟩, false) :: ps.map (fun x => (⟨x⟩, true))
  else [(⟨l⟩, false)]

/-- The `intermediateSearchList` of `searchULTWordRecords`: split the search
string on `/[-\s־]/`, strip the sentence punctuation from each word (`'all'`
flag: every occurrence), split ellipses, then drop words equal to the Hebrew
paseq `׀`. -/
def buildSearchList (s : String) : List (String × Bool) :=
  (((splitWhen searchSepChar s.data).map
      (fun l => l.filter (fun c => !(isQuotePunct c)))).flatMap tokenEll).filter
    (fun t => t.1 != "׀")

/-- The inner while-loop of the matcher: from gloss index `k`, require every
remaining phrase word to equal the payload of the correspondingly-offset
gloss token — but the JS loop stops (leaving `foundAllWords` true) as soon as
`ultIndex` reaches the end of the token list, so running out of tokens counts
as a match. -/
def contiguousAt (toks : List WTok) : List (String × Bool) → Nat → Bool
  | [], _ => true
  | (w, _) :: ws, k =>
    match toks.get? k with
    | none => true
    | some t => (t.payload == w) && contiguousAt toks ws (k + 1)

/-- The matcher's outer scan.  The JS pairs `getFirstWordIndex` (advance to
the next gloss token whose payload equals the first search word) with the
contiguity check, retrying from `startULTIndex + 1` on failure; its result is
exactly the least index `i` whose token matches the first word and passes the
contiguity check.  `suf` is the unscanned suffix of `toks` starting at
absolute index `i`. -/
def scanMatch (toks : List WTok) (w0 : String) (ws : List (String × Bool)) :
    List WTok → Nat → Option Nat
  | [], _ => none
  | t :: suf, i =>
    if (t.payload == w0) && contiguousAt toks ws (i + 1) then some i
    else scanMatch toks w0 ws suf (i + 1)

/-- The scopes-appending loop: tuple `j` receives the scopes of gloss token
`i + j`; tuples beyond the end of the token list keep only two fields
(`none` here). -/
def addScopesAux (toks : List WTok) : List (String × Bool) → Nat → List Triple
  | [], _ => []
  | (w, e) :: ws, k =>
    (w, e, (toks.get? k).map (fun t => t.scopes)) :: addScopesAux toks ws (k + 1)

/-- `searchULTWordRecords(ULTSearchString, ULTTokens)`.  `none` models the
uncaught `TypeError`s: an empty `intermediateSearchList` (the JS reads
`intermediateSearchList[0][0]`) or an `undefined` token list (the JS reads
`ULTTokenList.length`).  A failed search returns `some []`; a successful one
returns the tuples with scopes appended. -/
def searchULTWordRecords (ULTSearchString : String) (ULTTokens : Option (List WTok)) :
    Option (List Triple) :=
  match buildSearchList ULTSearchString with
  | [] => none
  | (w0, f0) :: ws =>
    match ULTTokens with
    | none => none
    | some toks =>
      match scanMatch toks w0 ws toks 0 with
      | none => some []
      | some i => some (addScopesAux toks ((w0, f0) :: ws) i)

/-- Specification helper (not part of the embedding): a *full* contiguous
match of the whole phrase at gloss index `k` — every phrase word must have a
gloss token at its offset.  This is what the spec's §4.3 describes. -/
def wordsMatchAt (toks : List WTok) : List (String × Bool) → Nat → Bool
  | [], _ => true
  | (w, _) :: ws, k =>
    match toks.get? k with
    | none => false
    | some t => (t.payload == w) && wordsMatchAt toks ws (k + 1)

/-- Specification helper: the condition under which the JS scan accepts start
index `i` — first word matches there and the (possibly end-truncated)
contiguity check passes. -/
def startCond (toks : List WTok) (inter : List (String × Bool)) (i : Nat) : Bool :=
  match inter with
  | [] => false
  | (w0, _) :: ws =>
    match toks.get? i with
    | none => false
    | some t => (t.payload == w0) && contiguousAt toks ws (i + 1)

/-! ### The Original-Language Projector: `origLFromGLQuote` -/

/-- Scope test for one original-language word against one search tuple:
the JS handles `scopesArray` of length 1 or 2 (substring search for
`/<word>:`), and skips the tuple with a warning for any other shape
(including a missing scopes field). -/
def tupleMatches (w : String) (t : Triple) : Bool :=
  match t.2.2 with
  | some [s1] => containsSubStr s1 ("/" ++ w ++ ":")
  | some [s1, s2] =>
    containsSubStr s1 ("/" ++ w ++ ":") || containsSubStr s2 ("/" ++ w ++ ":")
  | _ => false

/-- The projector's main loop: walk the original-language words in document
order and keep each word some tuple's scopes reference (first match wins —
the JS `break` stops scanning further tuples for this word). -/
def origLQuoteWordsOf (tuples : List Triple) (origLWordList : List String) : List String :=
  origLWordList.filter (fun w => tuples.any (fun t => tupleMatches w t))

/-- Crude model of `JSON.stringify` on a string (escaping is irrelevant to
every claim; only the embedding of the dumps in the diagnostic matters). -/
def jsonStr (s : String) : String := "\"" ++ s ++ "\""

/-- Model of `JSON.stringify` of one ULT token. -/
def jsonWTok (t : WTok) : String :=
  "\x7b\"payload\":" ++ jsonStr t.payload ++ ",\"scopes\":["
    ++ joinSep "," (t.scopes.map jsonStr) ++ "]\x7d"

/-- Model of `JSON.stringify(ULTTokens)`. -/
def jsonWToks (ts : List WTok) : String :=
  "[" ++ joinSep "," (ts.map jsonWTok) ++ "]"

/-- Model of `JSON.stringify` of one slimmed original-language token. -/
def jsonSlim (t : SlimTok) : String :=
  "\x7b\"payload\":" ++ jsonStr t.payload ++ "\x7d"

/-- Model of `JSON.stringify(wordLikeOrigLTokens)`. -/
def jsonSlims (ts : List SlimTok) : String :=
  "[" ++ joinSep "," (ts.map jsonSlim) ++ "]"

/-- JS default `toString` of one search 3-tuple inside a template literal
(arrays join their elements with `,`; a missing third field contributes
nothing, an empty scopes array contributes an empty string). -/
def tripleStr (t : Triple) : String :=
  t.1 ++ "," ++ (if t.2.1 then "true" else "false")
    ++ (match t.2.2 with
        | none => ""
        | some scs => "," ++ joinSep "," scs)

/-- JS default `toString` of the tuple list (`${ULTSearchThreeTuples}`). -/
def triplesStr (ts : List Triple) : String :=
  joinSep "," (ts.map tripleStr)

/-- Leading part of the `EMPTY MATCH IN OrigL SOURCE` template, up to the
opening quote around the search string. -/
def emptyMsgPre (book cv : String) : String :=
  "EMPTY MATCH IN OrigL SOURCE\n    Search String: " ++ book ++ " " ++ cv ++ " '"

/-- Middle part of the template, between the search string and the
occurrence. -/
def emptyMsgMid : String := "' occurrence="

/-- Tail of the template: the three token dumps. -/
def emptyMsgTail (toks : List WTok) (tuples : List Triple) (slims : List SlimTok) : String :=
  "\n      from ULTTokens (" ++ toString toks.length ++ ") " ++ jsonWToks toks
    ++ "\n       then ULTSearchThreeTuples (" ++ toString tuples.length ++ ") "
    ++ triplesStr tuples
    ++ "\n       then wordLikeOrigLTokens (" ++ toString slims.length ++ ") "
    ++ jsonSlims slims

/-- The whole `{error}` diagnostic of `origLFromGLQuote` (the template
literal at the source's `return {error: ...}`), grouped so the embedded
search string and occurrence are syntactically visible. -/
def emptyMatchMsg (book cv s occ : String) (toks : List WTok)
    (tuples : List Triple) (slims : List SlimTok) : String :=
  emptyMsgPre book cv ++ (s ++ (emptyMsgMid ++ (occ ++ emptyMsgTail toks tuples slims)))

/-- `origLFromGLQuote(book, cv, sourceTokens, ULTTokens, ULTSearchString,
searchOccurrence, prune)`.  `none` models the uncaught exceptions: a crash
inside `searchULTWordRecords`, or `sourceTokens` being `undefined` (the JS
calls `sourceTokens.filter(...)`).  Otherwise returns `{data}` when at least
one original-language word matched and `{error}` otherwise. -/
def origLFromGLQuote (book cv : String) (sourceTokens : Option (List Token))
    (ULTTokens : Option (List WTok)) (ULTSearchString searchOccurrence : String) :
    Option JSResult :=
  match searchULTWordRecords ULTSearchString ULTTokens, ULTTokens with
  | none, _ => none
  | some _, none => none
  | some threeTuples, some toks =>
    match sourceTokens with
    | none => none
    | some srcToks =>
      let wordLikeOrigLTokens :=
        slimSourceTokens (srcToks.filter (fun t => t.subType == "wordLike"))
      let origLWordList := wordLikeOrigLTokens.map (fun t => t.payload)
      let origLQuoteWords := origLQuoteWordsOf threeTuples origLWordList
      if origLQuoteWords.isEmpty then
        some (JSResult.error
          (emptyMatchMsg book cv ULTSearchString searchOccurrence toks threeTuples
            wordLikeOrigLTokens))
      else some (JSResult.data origLQuoteWords)

/-! ### `getTidiedData` -/

/-- Auxiliary for `getTidiedData`: replace the first (leftmost, greedy)
match of `/\s*…\s*/` with `" & "`. -/
def tidyAux : List Char → List Char
  | [] => []
  | c :: rest =>
    let t := (c :: rest).dropWhile isJSWS
    if t.head? == some '…' then (' ' :: '&' :: ' ' :: []) ++ t.tail.dropWhile isJSWS
    else c :: tidyAux rest

/-- `getTidiedData(wordList)`: space-join the matched words and replace the
first ellipsis run with `" & "`. -/
def getTidiedData (wordList : List String) : String :=
  ⟨tidyAux (joinSep " " wordList).data⟩

/-! ### The Verse/Record Resolver: `tsv7_ult_quotes_to_origl_quotes` -/

/-- `containsHebrewOrGreek(text)`: the regex
`/[֐-׿יִ-ﭏͰ-Ͽἀ-῿]/`. -/
def containsHebrewOrGreek (s : String) : Bool :=
  s.data.any (fun c =>
    (0x590 ≤ c.toNat && c.toNat ≤ 0x5FF) || (0xFB1D ≤ c.toNat && c.toNat ≤ 0xFB4F)
      || (0x370 ≤ c.toNat && c.toNat ≤ 0x3FF) || (0x1F00 ≤ c.toNat && c.toNat ≤ 0x1FFF))

/-- The resolver's pass-through short-circuit:
`!tsvRecord.ref || !tsvRecord.quote?.trim() || !tsvRecord.occurrence ||
tsvRecord.ref == 'Reference' || containsHebrewOrGreek(tsvRecord.quote)`
(missing fields are modelled as the falsy `""`). -/
def isPassthrough (r : TSVRecord) : Bool :=
  r.ref == "" || jsTrim r.quote == "" || r.occurrence == ""
    || r.ref == "Reference" || containsHebrewOrGreek r.quote

/-- `cleanQuote`: `tsvRecord.quote.replace(/&/g, '…').replace(/[{}]/g, '')` —
every ampersand becomes the canonical ellipsis, then braces are removed. -/
def cleanQuoteOf (q : String) : String :=
  ⟨(q.data.map (fun c => if c == '&' then '…' else c)).filter
    (fun c => !(c == '{' || c == '}'))⟩

/-- Tail of `ellSplit`: middle pieces lose the spaces adjacent to both
ellipses, the last piece only its leading spaces. -/
def ellSplitGo : List (List Char) → List String
  | [] => []
  | [x] => [⟨trimSpaceL x⟩]
  | x :: y :: ys => ⟨trimSpaceL (trimSpaceR x)⟩ :: ellSplitGo (y :: ys)

/-- JS `q.split(/ *… */)`: split at each ellipsis, consuming the literal
spaces around it.  A string without `…` is returned whole. -/
def ellSplit (q : String) : List String :=
  match splitWhen (fun c => c == '…') q.data with
  | [] => []
  | [x] => [⟨x⟩]
  | x :: y :: ys => ⟨trimSpaceR x⟩ :: ellSplitGo (y :: ys)

/-- The `quotesToTry` list, built in the source's push order:
clean quote; raw quote if different; ellipsis-part lists for both if the
clean quote contains an ellipsis; then the uppercase-first variant and its
ellipsis-part list. -/
def quotesToTryOf (rawQuote : String) : List QVar :=
  let clean := cleanQuoteOf rawQuote
  let cleanUC := upFirst clean
  [QVar.str clean]
    ++ (if rawQuote == clean then [] else [QVar.str rawQuote])
    ++ (if clean.data.contains '…' then
          [QVar.parts (ellSplit clean)]
            ++ (if rawQuote == clean then [] else [QVar.parts (ellSplit rawQuote)])
        else [])
    ++ (if clean == cleanUC then []
        else
          [QVar.str cleanUC]
            ++ (if cleanUC.data.contains '…' then [QVar.parts (ellSplit cleanUC)] else []))

/-- The inclusive integer range of the verse-range loop
`for (let i = a; i <= b; i++)`; empty when `b < a` (and the `NaN` cases are
handled by the caller). -/
def intRangeIncl (a b : Int) : List Int :=
  if b < a then [] else (List.range (b - a + 1).toNat).map (fun k => a + k)

/-- Expansion of one comma part of the verse specifier.  `none` in the
result models a `NaN` pushed by `parseInt`. -/
def expandCommaPart (p : String) : List (Option Int) :=
  if p.data.contains '-' then
    let range := jsSplitChar '-' (jsTrim p)
    if range.length > 1 then
      match parseIntJS (range.getD 0 ""), parseIntJS (range.getD 1 "") with
      | some a, some b => (intRangeIncl a b).map some
      | _, _ => []
    else []
  else [parseIntJS p]

/-- The `verses` list: trim the verse specifier, split on commas, expand
hyphen ranges. -/
def expandVerses (verseRef : String) : List (Option Int) :=
  (jsSplitChar ',' (jsTrim verseRef)).flatMap expandCommaPart

/-- The `cv` key: `` `${chapter}:${verse}` `` — a `NaN` verse stringifies to
`"NaN"`. -/
def cvString (chapter : String) (v : Option Int) : String :=
  chapter ++ ":" ++ (match v with | some n => toString n | none => "NaN")

/-- Does the result object expose a `data` field? -/
def isData : JSResult → Bool
  | JSResult.data _ => true
  | JSResult.error _ => false

/-- The ellipsis-parts loop of the resolver: each part is resolved as-is,
then retried with the uppercase-first transform; a part failing both ways
ends the variant with that error (no break to the next variant); when every
part converts, `resultObject.data` is overwritten with the ` & `-join and the
variant loop breaks.  The `Bool` is the break flag; `none` propagates a
crash. -/
def partsLoop (book cv : String) (src : Option (List Token)) (ult : Option (List WTok))
    (occ : String) : List String → List String → Option (JSResult × Bool)
  | [], acc => some (JSResult.data [joinSep " & " acc], true)
  | p :: ps, acc =>
    match origLFromGLQuote book cv src ult p occ with
    | none => none
    | some (JSResult.data ws) => partsLoop book cv src ult occ ps (acc ++ [getTidiedData ws])
    | some (JSResult.error _) =>
      match origLFromGLQuote book cv src ult (upFirst p) occ with
      | none => none
      | some (JSResult.data ws) => partsLoop book cv src ult occ ps (acc ++ [getTidiedData ws])
      | some (JSResult.error e) => some (JSResult.error e, false)

/-- Evaluate one `quotesToTry` entry, yielding the resulting `resultObject`
and whether the variant loop breaks.  An empty parts list is `none`: the JS
would run `resultObject.data = [...]` on `null` (unreachable, since every
`split` yields at least one part). -/
def evalVariant (book cv : String) (src : Option (List Token)) (ult : Option (List WTok))
    (occ : String) : QVar → Option (JSResult × Bool)
  | QVar.str q => (origLFromGLQuote book cv src ult q occ).map (fun r => (r, isData r))
  | QVar.parts [] => none
  | QVar.parts (p :: ps) => partsLoop book cv src ult occ (p :: ps) []

/-- The `for (const quote of quotesToTry)` loop: evaluate variants in order,
stopping at the first break; the final `resultObject` is the last variant's
result. -/
def tryQuotes (book cv : String) (src : Option (List Token)) (ult : Option (List WTok))
    (occ : String) (v : QVar) : List QVar → Option JSResult
  | [] =>
    match evalVariant book cv src ult occ v with
    | none => none
    | some (r, _) => some r
  | v' :: vs =>
    match evalVariant book cv src ult occ v with
    | none => none
    | some (r, brk) => if brk then some r else tryQuotes book cv src ult occ v' vs

/-- Everything the resolver does for one candidate verse: build the `cv`
key, look up and slim the tokens, build `quotesToTry`, run the variant
loop.  Returns the final `resultObject` (`none` = crash). -/
def verseAttempt (l : Lookups) (book chapter strippedQuote occ : String)
    (v : Option Int) : Option JSResult :=
  let cv := cvString chapter v
  let src := l.source cv
  let wordULT := (l.ult cv).map (fun ts =>
    (ts.filter (fun t => t.subType == "wordLike")).map (fun t => WTok.mk t.payload t.scopes))
  match quotesToTryOf strippedQuote with
  | [] => none
  | q :: qs => tryQuotes book cv src wordULT occ q qs

/-- The `for (const verseIdx in verses)` loop.  A success emits the tidied
quote and breaks; a failure on a non-final verse just continues; a failure on
the final verse emits the `QUOTE_NOT_FOUND: `-tagged row plus one diagnostic
in `errors`.  An empty verse list emits nothing at all. -/
def verseLoop (l : Lookups) (book chapter strippedQuote occ : String) (r : TSVRecord) :
    List (Option Int) → Option (List TSVRecord × List String)
  | [] => some ([], [])
  | v :: vs =>
    match verseAttempt l book chapter strippedQuote occ v with
    | none => none
    | some (JSResult.data ws) => some ([setQuote r (getTidiedData ws)], [])
    | some (JSResult.error e) =>
      match vs with
      | [] =>
        some ([setQuote r ("QUOTE_NOT_FOUND: " ++ strippedQuote)],
          ["Error: " ++ book ++ " " ++ cvString chapter v ++ " " ++ r.id ++ " " ++ e])
      | v' :: vs' => verseLoop l book chapter strippedQuote occ r (v' :: vs')

/-- The verse list of a record, as the resolver computes it (empty when the
`ref` has no `:`-part — in that case the resolver crashes before reaching
the loop). -/
def versesOfRecord (r : TSVRecord) : List (Option Int) :=
  match (jsSplitChar ':' r.ref).get? 1 with
  | none => []
  | some verseRef => expandVerses verseRef

/-- Process one TSV record: pass-through short-circuit, strip an existing
failure tag (first occurrence only), parse the reference, expand the verse
list and run the verse loop.  Returns the rows and errors this record
appends (`none` = uncaught exception, e.g. a `ref` without `:` making
`verseRef.trim()` throw). -/
def processRecord (l : Lookups) (book : String) (r : TSVRecord) :
    Option (List TSVRecord × List String) :=
  if isPassthrough r then some ([r], [])
  else
    let stripped := replaceFirst r.quote "QUOTE_NOT_FOUND: " ""
    let refParts := jsSplitChar ':' r.ref
    let chapter := refParts.getD 0 ""
    match refParts.get? 1 with
    | none => none
    | some verseRef =>
      verseLoop l book chapter stripped r.occurrence (setQuote r stripped)
        (expandVerses verseRef)

/-- The whole invocation, after the out-of-scope import/query steps: process
the parsed records sequentially, accumulating `output` and `errors`; any
uncaught exception rejects the whole invocation (`none`, no partial
output). -/
def tsv7_ult_quotes_to_origl_quotes (l : Lookups) (book : String) :
    List TSVRecord → Option (List TSVRecord × List String)
  | [] => some ([], [])
  | r :: rs =>
    match processRecord l book r with
    | none => none
    | some (o, e) =>
      match tsv7_ult_quotes_to_origl_quotes l book rs with
      | none => none
      | some (os, es) => some (o ++ os, e ++ es)

/-! ### Helpers for stating the claims -/

/-- Is the result object an `{error}`? -/
def isErrOpt : Option JSResult → Bool
  | some (JSResult.error _) => true
  | _ => false

/-- Outcome erasure for a result object: forget the diagnostic text, keep
the matched words.  Used to state that a value does not influence anything
but diagnostics. -/
def eraseJR : JSResult → Option (List String)
  | JSResult.data ws => some ws
  | JSResult.error _ => none

/-- Outcome erasure lifted to possibly-crashing results. -/
def eraseRes (r : Option JSResult) : Option (Option (List String)) :=
  r.map eraseJR

/-- Outcome erasure for a variant evaluation (result plus break flag). -/
def eraseAtt (r : Option (JSResult × Bool)) : Option (Option (List String) × Bool) :=
  r.map (fun p => (eraseJR p.1, p.2))

/-- Row-outcome erasure: keep the emitted quotes and the number of recorded
errors, forget the diagnostic strings and the other row fields' identity of
the emitted records. -/
def eraseOut (r : Option (List TSVRecord × List String)) :
    Option (List String × Nat) :=
  r.map (fun p => (p.1.map (fun rec => rec.quote), p.2.length))

/-- Lookups in which every verse key resolves to an empty token list. -/
def emptyLookups : Lookups := ⟨fun _ => some [], fun _ => some []⟩

/-- Lookups in which every verse key is missing. -/
def noneLookups : Lookups := ⟨fun _ => none, fun _ => none⟩

/-- Concrete lookups for the multi-verse scenario of §8.6: verse `5:3` has
empty token lists (every variant fails), verse `5:4` carries a two-word
gloss aligned to two original-language words. -/
def scenarioLookups : Lookups :=
  ⟨fun cv => if cv == "5:4" then
      some [⟨"x", "wordLike", 0, []⟩, ⟨"y", "wordLike", 1, []⟩]
    else some [],
   fun cv => if cv == "5:4" then
      some [⟨"the", "wordLike", 0, ["w/x:1"]⟩, ⟨"poor", "wordLike", 1, ["w/y:1"]⟩]
    else some []⟩

/-- Concrete lookups whose gloss verse `3:1` contains a word-like token with
payload `&`, so the raw-quote variant of `"a & b"` can match literally. -/
def ampLookups : Lookups :=
  ⟨fun cv => if cv == "3:1" then some [⟨"α", "wordLike", 0, []⟩] else none,
   fun cv => if cv == "3:1" then
      some [⟨"a", "wordLike", 0, ["w/α:1"]⟩, ⟨"&", "wordLike", 1, ["w/α:1"]⟩,
        ⟨"b", "wordLike", 2, ["w/α:1"]⟩]
    else none⟩


/-- The word list the projector computes for given inputs (the value of
`origLQuoteWords` inside `origLFromGLQuote` when nothing crashes). -/
def projWordsOf (s : String) (srcToks : List Token) (toks : List WTok) : List String :=
  origLQuoteWordsOf ((searchULTWordRecords s (some toks)).getD [])
    ((slimSourceTokens (srcToks.filter (fun t => t.subType == "wordLike"))).map
      (fun t => t.payload))

/-! ### General lemmas -/

theorem listStartsWith_append (p r : List Char) : listStartsWith p (p ++ r) = true := by
  induction p with
  | nil => rfl
  | cons c cs ih => simp [listStartsWith, ih]

theorem replaceFirst_tag (p q : String) (hp : p ≠ "") :
    replaceFirst (p ++ q) p "" = q := by
  have hd : p.data ≠ [] := by
    intro h
    apply hp
    cases p
    simp at h
    simp [h]
  cases hc : p.data with
  | nil => exact absurd hc hd
  | cons c cs =>
    unfold replaceFirst
    rw [String.data_append, hc]
    show String.mk (replaceFirstAux (c :: cs) [] (c :: (cs ++ q.data))) = q
    unfold replaceFirstAux
    rw [show (c :: (cs ++ q.data)) = (c :: cs) ++ q.data from rfl,
      listStartsWith_append]
    simp only [if_pos rfl]
    rw [show ((c :: cs) ++ q.data).drop (c :: cs).length = q.data from
      List.drop_left (c :: cs) q.data]
    cases q
    rfl

theorem wordsMatchAt_bound (toks : List WTok) :
    ∀ (ws : List (String × Bool)) (k : Nat), ws ≠ [] →
      wordsMatchAt toks ws k = true → k + ws.length ≤ toks.length := by
  intro ws
  induction ws with
  | nil => intro k h _; exact absurd rfl h
  | cons hd tl ih =>
    intro k _ hm
    obtain ⟨w, b⟩ := hd
    unfold wordsMatchAt at hm
    cases hk : toks.get? k with
    | none => rw [hk] at hm; exact absurd hm (by simp)
    | some t =>
      rw [hk] at hm
      simp only [Bool.and_eq_true] at hm
      obtain ⟨hlt, -⟩ := List.get?_eq_some.mp hk
      cases tl with
      | nil => simpa using hlt
      | cons hd' tl' =>
        have h2 := ih (k + 1) (by simp) hm.2
        simp only [List.length_cons] at h2 ⊢
        omega

theorem scanMatch_isSome_iff (toks : List WTok) (w0 : String) (f0 : Bool)
    (ws : List (String × Bool)) :
    ∀ (suf : List WTok) (i : Nat), suf = toks.drop i →
      ((scanMatch toks w0 ws suf i).isSome = true ↔
        ∃ j, i ≤ j ∧ startCond toks ((w0, f0) :: ws) j = true) := by
  intro suf
  induction suf with
  | nil =>
    intro i h
    constructor
    · intro hs
      simp [scanMatch] at hs
    · rintro ⟨j, hij, hc⟩
      exfalso
      have hnone : toks.get? j = none :=
        List.get?_eq_none.mpr (le_trans (List.drop_eq_nil_iff.mp h.symm) hij)
      rw [List.get?_eq_getElem?] at hnone
      simp [startCond, hnone] at hc
  | cons t suf ih =>
    intro i h
    have hget : toks.get? i = some t := by
      have h0 := List.get?_drop toks i 0
      rw [← h] at h0
      simpa using h0.symm
    have hdrop : suf = toks.drop (i + 1) := by
      have h1 := List.drop_drop 1 i toks
      rw [← h] at h1
      simpa using h1
    unfold scanMatch
    by_cases hc : ((t.payload == w0) && contiguousAt toks ws (i + 1)) = true
    · rw [if_pos hc]
      constructor
      · intro _
        refine ⟨i, Nat.le_refl i, ?_⟩
        simp only [startCond, hget]
        exact hc
      · intro _
        rfl
    · rw [if_neg hc, ih (i + 1) hdrop]
      constructor
      · rintro ⟨j, hij, hcond⟩
        exact ⟨j, le_trans (Nat.le_succ i) hij, hcond⟩
      · rintro ⟨j, hij, hcond⟩
        rcases Nat.lt_or_ge i j with hlt | hge
        · exact ⟨j, hlt, hcond⟩
        · have hji : j = i := le_antisymm hge hij
          exfalso
          rw [hji] at hcond
          simp only [startCond, hget] at hcond
          exact hc hcond

/-- Claim C2 (amended): the Gloss Matcher succeeds (returns a non-empty
tuple list) exactly when some start index makes every phrase word *whose
offset still lies within the gloss token list* equal the payload of the
correspondingly-offset gloss token — the contiguity check is truncated at
the end of the token list — and it returns the empty list when no such
start index exists. -/
theorem C2_gloss_matcher_success_iff (s : String) (toks : List WTok)
    (h : buildSearchList s ≠ []) :
    (∃ r, searchULTWordRecords s (some toks) = some r ∧ r ≠ []) ↔
      ∃ i, startCond toks (buildSearchList s) i = true := by
  cases hb : buildSearchList s with
  | nil => exact absurd hb h
  | cons hd ws =>
    obtain ⟨w0, f0⟩ := hd
    have hscan := scanMatch_isSome_iff toks w0 f0 ws toks 0 (by simp)
    cases hs : scanMatch toks w0 ws toks 0 with
    | none =>
      have hsearch : searchULTWordRecords s (some toks) = some [] := by
        unfold searchULTWordRecords
        rw [hb]
        simp [hs]
      rw [hs] at hscan
      constructor
      · rintro ⟨r, hr, hne⟩
        rw [hsearch] at hr
        exact absurd (Option.some.inj hr).symm hne
      · rintro ⟨i, hi⟩
        exfalso
        have : (none : Option Nat).isSome = true := hscan.mpr ⟨i, Nat.zero_le i, hi⟩
        simp at this
    | some i =>
      have hsearch : searchULTWordRecords s (some toks) =
          some (addScopesAux toks ((w0, f0) :: ws) i) := by
        unfold searchULTWordRecords
        rw [hb]
        simp [hs]
      rw [hs] at hscan
      constructor
      · intro _
        obtain ⟨j, -, hj⟩ := hscan.mp rfl
        exact ⟨j, hj⟩
      · intro _
        exact ⟨addScopesAux toks ((w0, f0) :: ws) i, hsearch, by simp [addScopesAux]⟩

/-- Witness for claim C2: a one-word phrase matching the single gloss token. -/
theorem C2_gloss_matcher_success_iff_witness :
    ∃ r, searchULTWordRecords "the" (some [⟨"the", ["w/x:1"]⟩]) = some r ∧ r ≠ [] :=
  (C2_gloss_matcher_success_iff "the" [⟨"the", ["w/x:1"]⟩] (by decide)).mpr ⟨0, by decide⟩

/-- Counterexample for claim C2 as stated: with gloss tokens `[a]` and
phrase `"a b"` the matcher *succeeds* (non-empty result) although no start
index makes every phrase word match a gloss token — the match is truncated
at the end of the token list. -/
theorem C2_counterexample :
    searchULTWordRecords "a b" (some [⟨"a", []⟩]) =
        some [("a", false, some []), ("b", false, none)] ∧
      ¬ ∃ i, wordsMatchAt [⟨"a", []⟩] (buildSearchList "a b") i = true := by
  refine ⟨by decide, ?_⟩
  rintro ⟨i, hi⟩
  have hb : buildSearchList "a b" = [("a", false), ("b", false)] := by decide
  rw [hb] at hi
  have h2 := wordsMatchAt_bound [⟨"a", []⟩] [("a", false), ("b", false)] i (by simp) hi
  simp only [List.length_cons, List.length_nil] at h2
  omega

theorem searchULTWordRecords_none_tokens (s : String) :
    searchULTWordRecords s none = none := by
  unfold searchULTWordRecords
  cases buildSearchList s with
  | nil => rfl
  | cons hd tl => obtain ⟨a, b⟩ := hd; rfl

theorem searchULTWordRecords_isSome (s : String) (toks : List WTok)
    (h : buildSearchList s ≠ []) :
    ∃ tp, searchULTWordRecords s (some toks) = some tp := by
  cases hb : buildSearchList s with
  | nil => exact absurd hb h
  | cons hd ws =>
    obtain ⟨w0, f0⟩ := hd
    cases hs : scanMatch toks w0 ws toks 0 with
    | none =>
      refine ⟨[], ?_⟩
      unfold searchULTWordRecords
      rw [hb]
      simp [hs]
    | some i =>
      refine ⟨addScopesAux toks ((w0, f0) :: ws) i, ?_⟩
      unfold searchULTWordRecords
      rw [hb]
      simp [hs]

/-- Claim C3 (amended): a candidate verse whose original-language verse-token
list is *empty* yields a recoverable `{error}` result for every variant with
a non-crashing search phrase; a verse whose token list is *absent*
(`undefined`) instead crashes (`none`), aborting the whole invocation. -/
theorem C3_empty_vs_absent_tokens (book cv : String) (ts : List WTok) (s occ : String)
    (h : buildSearchList s ≠ []) :
    (∃ msg, origLFromGLQuote book cv (some []) (some ts) s occ = some (JSResult.error msg)) ∧
      origLFromGLQuote book cv none (some ts) s occ = none := by
  obtain ⟨tp, htp⟩ := searchULTWordRecords_isSome s ts h
  constructor
  · refine ⟨emptyMatchMsg book cv s occ ts tp [], ?_⟩
    unfold origLFromGLQuote
    rw [htp]
    simp [origLQuoteWordsOf, slimSourceTokens]
  · unfold origLFromGLQuote
    rw [htp]

/-- Witness for claim C3 at concrete inputs. -/
theorem C3_empty_vs_absent_tokens_witness :
    (∃ msg, origLFromGLQuote "GEN" "1:1" (some []) (some []) "a" "1"
        = some (JSResult.error msg)) ∧
      origLFromGLQuote "GEN" "1:1" none (some []) "a" "1" = none :=
  C3_empty_vs_absent_tokens "GEN" "1:1" [] "a" "1" (by decide)

/-- Counterexample for claim C3 as stated: an *absent* verse-token list does
not yield a recoverable failure — the call crashes (`none`, the JS
`TypeError` on `sourceTokens.filter`). -/
theorem C3_counterexample :
    origLFromGLQuote "GEN" "1:1" none (some [⟨"a", ["x"]⟩]) "the" "1" = none := by
  decide

/-- Claim C7: the Original-Language Projector returns `{data}` exactly when
the projected word list is non-empty and `{error}` exactly when it is empty,
the error text embedding the search phrase and the occurrence (and, inside
`emptyMsgTail`, the token dumps). -/
theorem C7_projector_result_shape (book cv s occ : String) (srcToks : List Token)
    (toks : List WTok) (h : buildSearchList s ≠ []) :
    (projWordsOf s srcToks toks ≠ [] →
      origLFromGLQuote book cv (some srcToks) (some toks) s occ
        = some (JSResult.data (projWordsOf s srcToks toks))) ∧
    (projWordsOf s srcToks toks = [] →
      ∃ pre mid post, origLFromGLQuote book cv (some srcToks) (some toks) s occ
        = some (JSResult.error (pre ++ (s ++ (mid ++ (occ ++ post)))))) := by
  obtain ⟨tp, htp⟩ := searchULTWordRecords_isSome s toks h
  have hw : projWordsOf s srcToks toks =
      origLQuoteWordsOf tp
        ((slimSourceTokens (srcToks.filter (fun t => t.subType == "wordLike"))).map
          (fun t => t.payload)) := by
    unfold projWordsOf
    rw [htp]
    rfl
  constructor
  · intro hne
    unfold origLFromGLQuote
    rw [htp]
    rw [hw] at hne
    simp only []
    rw [if_neg (by simpa [List.isEmpty_iff] using hne)]
    rw [hw]
  · intro hempty
    rw [hw] at hempty
    refine ⟨emptyMsgPre book cv, emptyMsgMid,
      emptyMsgTail toks tp
        (slimSourceTokens (srcToks.filter (fun t => t.subType == "wordLike"))), ?_⟩
    unfold origLFromGLQuote
    rw [htp]
    simp only []
    rw [if_pos (by simpa [List.isEmpty_iff] using hempty)]
    rfl

/-- Witness for claim C7: empty tokens make the projection empty, and the
diagnostic embeds the phrase `"a"` and the occurrence `"7"`. -/
theorem C7_projector_result_shape_witness :
    ∃ pre mid post, origLFromGLQuote "GEN" "1:1" (some []) (some []) "a" "7"
      = some (JSResult.error (pre ++ ("a" ++ (mid ++ ("7" ++ post))))) :=
  (C7_projector_result_shape "GEN" "1:1" "a" "7" [] [] (by decide)).2 (by decide)

/-- Claim C4 (amended): projection soundness — every emitted word has a
matching alignment reference among the tuples — and each *position* of the
original-language word list is emitted at most once (the filter emits at most
as many copies of a word as the verse contains). -/
theorem C4_projection_soundness (tuples : List Triple) (words : List String) :
    (∀ w, w ∈ origLQuoteWordsOf tuples words →
      ∃ t, t ∈ tuples ∧ ∃ sc, sc ∈ t.2.2.getD [] ∧
        containsSubStr sc ("/" ++ w ++ ":") = true) ∧
    (∀ w, (origLQuoteWordsOf tuples words).count w ≤ words.count w) := by
  constructor
  · intro w hw
    rw [origLQuoteWordsOf, List.mem_filter] at hw
    obtain ⟨-, hp⟩ := hw
    rw [List.any_eq_true] at hp
    obtain ⟨t, ht, hm⟩ := hp
    refine ⟨t, ht, ?_⟩
    rcases hsc : t.2.2 with - | (- | ⟨s1, - | ⟨s2, - | ⟨s3, rest⟩⟩⟩)
    · simp [tupleMatches, hsc] at hm
    · simp [tupleMatches, hsc] at hm
    · simp only [tupleMatches, hsc] at hm
      exact ⟨s1, by simp [hsc], hm⟩
    · simp only [tupleMatches, hsc] at hm
      rcases Bool.or_eq_true_iff.mp hm with h1 | h2
      · exact ⟨s1, by simp [hsc], h1⟩
      · exact ⟨s2, by simp [hsc], h2⟩
    · simp [tupleMatches, hsc] at hm
  · intro w
    simp only [origLQuoteWordsOf]
    exact (List.filter_sublist words).count_le w

/-- Witness for claim C4: the single emitted word has a matching reference. -/
theorem C4_projection_soundness_witness :
    ∃ t, t ∈ [(("a" : String), false, some ["w/α:1"])] ∧
      ∃ sc, sc ∈ t.2.2.getD [] ∧ containsSubStr sc ("/" ++ "α" ++ ":") = true :=
  (C4_projection_soundness [("a", false, some ["w/α:1"])] ["α"]).1 "α" (by decide)

/-- Counterexample for claim C4 as stated: a verse containing the same
original-language word twice emits it twice in one projection, refuting
"a single original-language word is emitted at most once per projection". -/
theorem C4_counterexample :
    ¬ ((origLQuoteWordsOf [("a", false, some ["w/α:1"])] ["α", "α"]).count "α" ≤ 1) := by
  decide

theorem setQuote_setQuote (r : TSVRecord) (a b : String) :
    setQuote (setQuote r a) b = setQuote r b := rfl

theorem setQuote_self (r : TSVRecord) : setQuote r r.quote = r := rfl

/-- Claim C8: a processed row whose quote contains Hebrew or Greek script,
or whose quote is empty, or whose ref is the literal header label, is passed
through unchanged with no failure recorded. -/
theorem C8_passthrough (l : Lookups) (book : String) (r : TSVRecord)
    (h : containsHebrewOrGreek r.quote = true ∨ r.quote = "" ∨ r.ref = "Reference") :
    processRecord l book r = some ([r], []) := by
  have hp : isPassthrough r = true := by
    unfold isPassthrough
    rcases h with h | h | h
    · simp [h]
    · have hjt : jsTrim "" = "" := rfl
      rw [h, hjt]
      simp
    · rw [h]
      simp
  unfold processRecord
  rw [hp]
  rfl

/-- Witness for claim C8: a Greek quote is passed through. -/
theorem C8_passthrough_witness :
    processRecord emptyLookups "JHN" ⟨"1:1", "λόγος", "1", "id", []⟩
      = some ([⟨"1:1", "λόγος", "1", "id", []⟩], []) :=
  C8_passthrough emptyLookups "JHN" ⟨"1:1", "λόγος", "1", "id", []⟩ (Or.inl (by decide))

theorem verseLoop_cons_error (l : Lookups) (book chapter strip occ : String)
    (r : TSVRecord) (v : Option Int) (vs : List (Option Int)) (m : String)
    (ha : verseAttempt l book chapter strip occ v = some (JSResult.error m))
    (hvs : vs ≠ []) :
    verseLoop l book chapter strip occ r (v :: vs) =
      verseLoop l book chapter strip occ r vs := by
  cases vs with
  | nil => exact absurd rfl hvs
  | cons a as =>
    conv_lhs => rw [verseLoop]
    rw [ha]

theorem verseLoop_shape (l : Lookups) (book chapter strip occ : String) (r : TSVRecord) :
    ∀ (vs : List (Option Int)) (o : List TSVRecord) (e : List String),
      verseLoop l book chapter strip occ r vs = some (o, e) →
      (vs = [] ∧ o = [] ∧ e = []) ∨ ∃ q, o = [setQuote r q] := by
  intro vs
  induction vs with
  | nil =>
    intro o e hrun
    simp only [verseLoop, Option.some.injEq, Prod.mk.injEq] at hrun
    exact Or.inl ⟨rfl, hrun.1.symm, hrun.2.symm⟩
  | cons v vs ih =>
    intro o e hrun
    cases ha : verseAttempt l book chapter strip occ v with
    | none => rw [verseLoop, ha] at hrun; exact absurd hrun (by simp)
    | some jr =>
      cases jr with
      | data ws =>
        rw [verseLoop, ha] at hrun
        simp only [Option.some.injEq, Prod.mk.injEq] at hrun
        exact Or.inr ⟨getTidiedData ws, hrun.1.symm⟩
      | error m =>
        cases vs with
        | nil =>
          rw [verseLoop, ha] at hrun
          simp only [Option.some.injEq, Prod.mk.injEq] at hrun
          exact Or.inr ⟨"QUOTE_NOT_FOUND: " ++ strip, hrun.1.symm⟩
        | cons a as =>
          rw [verseLoop_cons_error l book chapter strip occ r v (a :: as) m ha (by simp)]
            at hrun
          rcases ih o e hrun with ⟨habs, -, -⟩ | hq
          · exact absurd habs (by simp)
          · exact Or.inr hq

theorem verseLoop_fail (l : Lookups) (book chapter strip occ : String) (r : TSVRecord) :
    ∀ (vs : List (Option Int)) (o : List TSVRecord) (e : List String),
      verseLoop l book chapter strip occ r vs = some (o, e) → e ≠ [] →
      o = [setQuote r ("QUOTE_NOT_FOUND: " ++ strip)] := by
  intro vs
  induction vs with
  | nil =>
    intro o e hrun hne
    simp only [verseLoop, Option.some.injEq, Prod.mk.injEq] at hrun
    exact absurd hrun.2.symm hne
  | cons v vs ih =>
    intro o e hrun hne
    cases ha : verseAttempt l book chapter strip occ v with
    | none => rw [verseLoop, ha] at hrun; exact absurd hrun (by simp)
    | some jr =>
      cases jr with
      | data ws =>
        rw [verseLoop, ha] at hrun
        simp only [Option.some.injEq, Prod.mk.injEq] at hrun
        exact absurd hrun.2.symm hne
      | error m =>
        cases vs with
        | nil =>
          rw [verseLoop, ha] at hrun
          simp only [Option.some.injEq, Prod.mk.injEq] at hrun
          exact hrun.1.symm
        | cons a as =>
          rw [verseLoop_cons_error l book chapter strip occ r v (a :: as) m ha (by simp)]
            at hrun
          exact ih o e hrun hne

/-- Claim C5: candidate verses are tried in order; the first verse on which
some variant resolves wins and is committed as a pass with no error
recorded; and when every candidate verse fails, the row is committed as a
single tagged failure with exactly one error entry. -/
theorem C5_first_success_wins (l : Lookups) (book chapter strip occ : String)
    (r : TSVRecord) :
    (∀ (vs₁ : List (Option Int)) (v : Option Int) (vs₂ : List (Option Int))
        (ws : List String),
      (∀ u ∈ vs₁, isErrOpt (verseAttempt l book chapter strip occ u) = true) →
      verseAttempt l book chapter strip occ v = some (JSResult.data ws) →
      verseLoop l book chapter strip occ r (vs₁ ++ v :: vs₂) =
        some ([setQuote r (getTidiedData ws)], [])) ∧
    (∀ (u : Option Int) (us : List (Option Int)),
      (∀ x ∈ u :: us, isErrOpt (verseAttempt l book chapter strip occ x) = true) →
      ∃ msg, verseLoop l book chapter strip occ r (u :: us) =
        some ([setQuote r ("QUOTE_NOT_FOUND: " ++ strip)], [msg])) := by
  constructor
  · intro vs₁ v vs₂ ws h1 h2
    induction vs₁ with
    | nil => simp [verseLoop, h2]
    | cons u us ih =>
      have hu : isErrOpt (verseAttempt l book chapter strip occ u) = true :=
        h1 u (List.mem_cons_self u us)
      cases ha : verseAttempt l book chapter strip occ u with
      | none => rw [ha] at hu; simp [isErrOpt] at hu
      | some jr =>
        cases jr with
        | data ws' => rw [ha] at hu; simp [isErrOpt] at hu
        | error m =>
          rw [List.cons_append,
            verseLoop_cons_error l book chapter strip occ r u (us ++ v :: vs₂) m ha
              (by simp)]
          exact ih (fun x hx => h1 x (List.mem_cons_of_mem u hx))
  · intro u us hall
    induction us generalizing u with
    | nil =>
      have hu : isErrOpt (verseAttempt l book chapter strip occ u) = true :=
        hall u (List.mem_cons_self u [])
      cases ha : verseAttempt l book chapter strip occ u with
      | none => rw [ha] at hu; simp [isErrOpt] at hu
      | some jr =>
        cases jr with
        | data ws' => rw [ha] at hu; simp [isErrOpt] at hu
        | error m =>
          refine ⟨"Error: " ++ book ++ " " ++ cvString chapter u ++ " " ++ r.id ++ " "
            ++ m, ?_⟩
          simp [verseLoop, ha]
    | cons a as ih =>
      have hu : isErrOpt (verseAttempt l book chapter strip occ u) = true :=
        hall u (List.mem_cons_self u (a :: as))
      cases ha : verseAttempt l book chapter strip occ u with
      | none => rw [ha] at hu; simp [isErrOpt] at hu
      | some jr =>
        cases jr with
        | data ws' => rw [ha] at hu; simp [isErrOpt] at hu
        | error m =>
          rw [verseLoop_cons_error l book chapter strip occ r u (a :: as) m ha (by simp)]
          exact ih a (fun x hx => hall x (List.mem_cons_of_mem u hx))

/-- Witness for claim C5: the §8.6 scenario — verse 5:3 fails, verse 5:4
succeeds, the row is committed from verse 4's projection, `errors` stays
empty. -/
theorem C5_first_success_wins_witness :
    verseLoop scenarioLookups "RUT" "5" "the poor" "1" ⟨"5:3,4", "the poor", "1", "i", []⟩
        ([some 3] ++ some 4 :: []) =
      some ([setQuote ⟨"5:3,4", "the poor", "1", "i", []⟩ (getTidiedData ["x", "y"])], []) :=
  (C5_first_success_wins scenarioLookups "RUT" "5" "the poor" "1"
      ⟨"5:3,4", "the poor", "1", "i", []⟩).1
    [some 3] (some 4) [] ["x", "y"] (by decide) (by decide)

theorem processRecord_shape (l : Lookups) (book : String) (r : TSVRecord)
    (o : List TSVRecord) (e : List String)
    (hrun : processRecord l book r = some (o, e))
    (hv : isPassthrough r = false → versesOfRecord r ≠ []) :
    ∃ q, o = [setQuote r q] := by
  cases hp : isPassthrough r with
  | true =>
    unfold processRecord at hrun
    rw [hp] at hrun
    simp only [if_true, Option.some.injEq, Prod.mk.injEq] at hrun
    exact ⟨r.quote, by rw [setQuote_self]; exact hrun.1.symm⟩
  | false =>
    unfold processRecord at hrun
    rw [hp] at hrun
    simp only [Bool.false_eq_true, if_false] at hrun
    cases hvr : (jsSplitChar ':' r.ref).get? 1 with
    | none => rw [hvr] at hrun; exact absurd hrun (by simp)
    | some vr =>
      rw [hvr] at hrun
      have hne : expandVerses vr ≠ [] := by
        have := hv hp
        unfold versesOfRecord at this
        rw [hvr] at this
        exact this
      rcases verseLoop_shape l book ((jsSplitChar ':' r.ref).getD 0 "")
          (replaceFirst r.quote "QUOTE_NOT_FOUND: " "") r.occurrence
          (setQuote r (replaceFirst r.quote "QUOTE_NOT_FOUND: " ""))
          (expandVerses vr) o e hrun with ⟨habs, -, -⟩ | ⟨q, hq⟩
      · exact absurd habs hne
      · exact ⟨q, by rw [hq, setQuote_setQuote]⟩

/-- Claim C1 (amended): whenever the invocation completes and every
processed (non-pass-through) row's verse specifier expands to a non-empty
verse list, the output has exactly one row per input row, in order, each
equal to its input row with only the quote field possibly rewritten.  (A row
whose verse list expands empty — e.g. a descending range — is silently
dropped, which is what the counterexample exhibits.) -/
theorem C1_order_preservation (l : Lookups) (book : String) :
    ∀ (records out : List TSVRecord) (errs : List String),
      tsv7_ult_quotes_to_origl_quotes l book records = some (out, errs) →
      (∀ r ∈ records, isPassthrough r = false → versesOfRecord r ≠ []) →
      ∃ qs : List String, qs.length = records.length ∧
        out = List.zipWith setQuote records qs := by
  intro records
  induction records with
  | nil =>
    intro out errs hrun _
    simp only [tsv7_ult_quotes_to_origl_quotes, Option.some.injEq, Prod.mk.injEq] at hrun
    exact ⟨[], rfl, by rw [← hrun.1]; rfl⟩
  | cons r rs ih =>
    intro out errs hrun hv
    rw [tsv7_ult_quotes_to_origl_quotes] at hrun
    cases hr : processRecord l book r with
    | none => rw [hr] at hrun; exact absurd hrun (by simp)
    | some oe =>
      obtain ⟨o, e⟩ := oe
      rw [hr] at hrun
      cases hrs : tsv7_ult_quotes_to_origl_quotes l book rs with
      | none => rw [hrs] at hrun; exact absurd hrun (by simp)
      | some oses =>
        obtain ⟨os, es⟩ := oses
        rw [hrs] at hrun
        simp only [Option.some.injEq, Prod.mk.injEq] at hrun
        obtain ⟨q, hq⟩ := processRecord_shape l book r o e hr
          (fun hp => hv r (List.mem_cons_self r rs) hp)
        obtain ⟨qs, hlen, hout⟩ := ih os es hrs
          (fun x hx hp => hv x (List.mem_cons_of_mem r hx) hp)
        refine ⟨q :: qs, by simp [hlen], ?_⟩
        rw [← hrun.1, hq, hout]
        rfl

/-- Witness for claim C1: a single pass-through row yields a one-row output. -/
theorem C1_order_preservation_witness :
    ∃ qs : List String, qs.length = ([⟨"Reference", "q", "1", "i", []⟩] : List TSVRecord).length ∧
      [(⟨"Reference", "q", "1", "i", []⟩ : TSVRecord)] =
        List.zipWith setQuote [⟨"Reference", "q", "1", "i", []⟩] qs :=
  C1_order_preservation emptyLookups "GEN" [⟨"Reference", "q", "1", "i", []⟩]
    [⟨"Reference", "q", "1", "i", []⟩] [] (by decide) (by decide)

/-- Counterexample for claim C1 as stated: a recognized-book invocation on a
one-row table whose ref is the descending range `1:3-2` produces an *empty*
output — the row is dropped, `output.length ≠ inputRowCount`. -/
theorem C1_counterexample :
    tsv7_ult_quotes_to_origl_quotes noneLookups "RUT"
        [⟨"1:3-2", "the poor", "1", "i1", []⟩] = some ([], []) ∧
      ([] : List TSVRecord).length ≠
        ([⟨"1:3-2", "the poor", "1", "i1", []⟩] : List TSVRecord).length := by
  decide

/-- Claim C6 (amended): before variant generation the *first* occurrence of
`"QUOTE_NOT_FOUND: "` is removed from the quote, and a failing row is
emitted as exactly that tag prepended to the stripped quote — so a row
carrying a single tag is re-emitted with a single tag, while a row carrying
several stacked tags keeps the extra ones (the counterexample). -/
theorem C6_single_tag_strip (l : Lookups) (book : String) (r : TSVRecord)
    (out : List TSVRecord) (errs : List String)
    (hrun : processRecord l book r = some (out, errs)) (hfail : errs ≠ []) :
    out = [setQuote r ("QUOTE_NOT_FOUND: " ++ replaceFirst r.quote "QUOTE_NOT_FOUND: " "")] ∧
    ∀ q : String, replaceFirst ("QUOTE_NOT_FOUND: " ++ q) "QUOTE_NOT_FOUND: " "" = q := by
  constructor
  · cases hp : isPassthrough r with
    | true =>
      unfold processRecord at hrun
      rw [hp] at hrun
      simp only [if_true, Option.some.injEq, Prod.mk.injEq] at hrun
      exact absurd hrun.2.symm hfail
    | false =>
      unfold processRecord at hrun
      rw [hp] at hrun
      simp only [Bool.false_eq_true, if_false] at hrun
      cases hvr : (jsSplitChar ':' r.ref).get? 1 with
      | none => rw [hvr] at hrun; exact absurd hrun (by simp)
      | some vr =>
        rw [hvr] at hrun
        have := verseLoop_fail l book ((jsSplitChar ':' r.ref).getD 0 "")
          (replaceFirst r.quote "QUOTE_NOT_FOUND: " "") r.occurrence
          (setQuote r (replaceFirst r.quote "QUOTE_NOT_FOUND: " ""))
          (expandVerses vr) out errs hrun hfail
        rw [this, setQuote_setQuote]
  · intro q
    exact replaceFirst_tag "QUOTE_NOT_FOUND: " q (by decide)

/-- Witness for claim C6: the §8.7 scenario — the singly-tagged quote
`"QUOTE_NOT_FOUND: foo bar"` fails again and is emitted with a single tag. -/
theorem C6_single_tag_strip_witness :
    (processRecord emptyLookups "GEN" ⟨"2:1", "QUOTE_NOT_FOUND: foo bar", "1", "id", []⟩).map
        (fun p => p.1) =
      some [setQuote ⟨"2:1", "QUOTE_NOT_FOUND: foo bar", "1", "id", []⟩
        ("QUOTE_NOT_FOUND: " ++
          replaceFirst "QUOTE_NOT_FOUND: foo bar" "QUOTE_NOT_FOUND: " "")] := by
  cases hcomp : processRecord emptyLookups "GEN"
      ⟨"2:1", "QUOTE_NOT_FOUND: foo bar", "1", "id", []⟩ with
  | none => exact absurd hcomp (by decide)
  | some oe =>
    obtain ⟨o, e⟩ := oe
    have hlen : e.length = 1 := by
      have h2 : (processRecord emptyLookups "GEN"
          ⟨"2:1", "QUOTE_NOT_FOUND: foo bar", "1", "id", []⟩).map
            (fun p => p.2.length) = some 1 := by decide
      rw [hcomp] at h2
      simpa using h2
    have hfail : e ≠ [] := by
      intro he
      rw [he] at hlen
      exact absurd hlen (by simp)
    have hmain := (C6_single_tag_strip emptyLookups "GEN"
      ⟨"2:1", "QUOTE_NOT_FOUND: foo bar", "1", "id", []⟩ o e hcomp hfail).1
    rw [Option.map_some', hmain]

/-- Counterexample for claim C6 as stated: a quote already carrying the tag
prefix twice is emitted with a doubled tag — only one leading tag is
stripped before retagging. -/
theorem C6_counterexample :
    (processRecord emptyLookups "GEN"
        ⟨"2:1", "QUOTE_NOT_FOUND: QUOTE_NOT_FOUND: foo", "1", "id", []⟩).map
        (fun p => p.1.map (fun rec => rec.quote)) =
      some ["QUOTE_NOT_FOUND: QUOTE_NOT_FOUND: foo"] := by
  decide

theorem eraseRes_eq_none {x : Option JSResult} : eraseRes x = none ↔ x = none := by
  cases x with
  | none => simp [eraseRes]
  | some v => cases v <;> simp [eraseRes, eraseJR]

theorem eraseRes_eq_some_data {x : Option JSResult} {ws : List String} :
    eraseRes x = some (some ws) ↔ x = some (JSResult.data ws) := by
  cases x with
  | none => simp [eraseRes]
  | some v => cases v <;> simp [eraseRes, eraseJR]

theorem eraseRes_eq_some_err {x : Option JSResult} :
    eraseRes x = some none ↔ ∃ m, x = some (JSResult.error m) := by
  cases x with
  | none => simp [eraseRes]
  | some v => cases v <;> simp [eraseRes, eraseJR]

theorem eraseRes_origL_occ (book cv : String) (src : Option (List Token))
    (ult : Option (List WTok)) (q o₁ o₂ : String) :
    eraseRes (origLFromGLQuote book cv src ult q o₁) =
      eraseRes (origLFromGLQuote book cv src ult q o₂) := by
  unfold origLFromGLQuote
  cases hs : searchULTWordRecords q ult with
  | none => rfl
  | some tp =>
    cases ult with
    | none => rfl
    | some toks =>
      cases src with
      | none => rfl
      | some st =>
        by_cases he :
          (origLQuoteWordsOf tp
            ((slimSourceTokens (st.filter (fun t => t.subType == "wordLike"))).map
              (fun t => t.payload))).isEmpty = true
        · simp only [he, if_true]
          rfl
        · simp only [he, Bool.false_eq_true, if_false]

theorem eraseAtt_partsLoop_occ (book cv : String) (src : Option (List Token))
    (ult : Option (List WTok)) (o₁ o₂ : String) :
    ∀ (ps acc : List String),
      eraseAtt (partsLoop book cv src ult o₁ ps acc) =
        eraseAtt (partsLoop book cv src ult o₂ ps acc) := by
  intro ps
  induction ps with
  | nil => intro acc; rfl
  | cons p ps ih =>
    intro acc
    have h1 := eraseRes_origL_occ book cv src ult p o₁ o₂
    cases ha : origLFromGLQuote book cv src ult p o₁ with
    | none =>
      rw [ha] at h1
      have hb : origLFromGLQuote book cv src ult p o₂ = none := eraseRes_eq_none.mp h1.symm
      simp only [partsLoop]
      rw [ha, hb]
    | some jr =>
      cases jr with
      | data ws =>
        rw [ha] at h1
        have hb : origLFromGLQuote book cv src ult p o₂ = some (JSResult.data ws) :=
          eraseRes_eq_some_data.mp (by rw [← h1]; rfl)
        simp only [partsLoop]
        rw [ha, hb]
        exact ih (acc ++ [getTidiedData ws])
      | error m =>
        rw [ha] at h1
        obtain ⟨m₂, hb⟩ := eraseRes_eq_some_err.mp (by rw [← h1]; rfl)
        have h2 := eraseRes_origL_occ book cv src ult (upFirst p) o₁ o₂
        cases ha2 : origLFromGLQuote book cv src ult (upFirst p) o₁ with
        | none =>
          rw [ha2] at h2
          have hb2 : origLFromGLQuote book cv src ult (upFirst p) o₂ = none :=
            eraseRes_eq_none.mp h2.symm
          simp only [partsLoop]
          rw [ha, hb, ha2, hb2]
        | some jr2 =>
          cases jr2 with
          | data ws2 =>
            rw [ha2] at h2
            have hb2 : origLFromGLQuote book cv src ult (upFirst p) o₂
                = some (JSResult.data ws2) :=
              eraseRes_eq_some_data.mp (by rw [← h2]; rfl)
            simp only [partsLoop]
            rw [ha, hb, ha2, hb2]
            exact ih (acc ++ [getTidiedData ws2])
          | error m2 =>
            rw [ha2] at h2
            obtain ⟨m₂', hb2⟩ := eraseRes_eq_some_err.mp (by rw [← h2]; rfl)
            simp only [partsLoop]
            rw [ha, hb, ha2, hb2]
            rfl

theorem eraseAtt_evalVariant_occ (book cv : String) (src : Option (List Token))
    (ult : Option (List WTok)) (o₁ o₂ : String) (v : QVar) :
    eraseAtt (evalVariant book cv src ult o₁ v) =
      eraseAtt (evalVariant book cv src ult o₂ v) := by
  cases v with
  | parts ps =>
    cases ps with
    | nil => rfl
    | cons p ps' => exact eraseAtt_partsLoop_occ book cv src ult o₁ o₂ (p :: ps') []
  | str q =>
    have h1 := eraseRes_origL_occ book cv src ult q o₁ o₂
    cases ha : origLFromGLQuote book cv src ult q o₁ with
    | none =>
      rw [ha] at h1
      have hb : origLFromGLQuote book cv src ult q o₂ = none := eraseRes_eq_none.mp h1.symm
      simp only [evalVariant]
      rw [ha, hb]
    | some jr =>
      cases jr with
      | data ws =>
        rw [ha] at h1
        have hb : origLFromGLQuote book cv src ult q o₂ = some (JSResult.data ws) :=
          eraseRes_eq_some_data.mp (by rw [← h1]; rfl)
        simp only [evalVariant]
        rw [ha, hb]
      | error m =>
        rw [ha] at h1
        obtain ⟨m₂, hb⟩ := eraseRes_eq_some_err.mp (by rw [← h1]; rfl)
        simp only [evalVariant]
        rw [ha, hb]
        rfl

theorem eraseRes_tryQuotes_occ (book cv : String) (src : Option (List Token))
    (ult : Option (List WTok)) (o₁ o₂ : String) :
    ∀ (vs : List QVar) (v : QVar),
      eraseRes (tryQuotes book cv src ult o₁ v vs) =
        eraseRes (tryQuotes book cv src ult o₂ v vs) := by
  intro vs
  induction vs with
  | nil =>
    intro v
    have h := eraseAtt_evalVariant_occ book cv src ult o₁ o₂ v
    cases ha : evalVariant book cv src ult o₁ v with
    | none =>
      cases hb : evalVariant book cv src ult o₂ v with
      | none => simp only [tryQuotes]; rw [ha, hb]
      | some rb => rw [ha, hb] at h; simp [eraseAtt] at h
    | some rb =>
      obtain ⟨r, brk⟩ := rb
      cases hb : evalVariant book cv src ult o₂ v with
      | none => rw [ha, hb] at h; simp [eraseAtt] at h
      | some rb₂ =>
        obtain ⟨r₂, brk₂⟩ := rb₂
        rw [ha, hb] at h
        simp only [eraseAtt, Option.map_some', Option.some.injEq, Prod.mk.injEq] at h
        simp only [tryQuotes]
        rw [ha, hb]
        show some (eraseJR r) = some (eraseJR r₂)
        rw [h.1]
  | cons v' vs ih =>
    intro v
    have h := eraseAtt_evalVariant_occ book cv src ult o₁ o₂ v
    cases ha : evalVariant book cv src ult o₁ v with
    | none =>
      cases hb : evalVariant book cv src ult o₂ v with
      | none => simp only [tryQuotes]; rw [ha, hb]
      | some rb => rw [ha, hb] at h; simp [eraseAtt] at h
    | some rb =>
      obtain ⟨r, brk⟩ := rb
      cases hb : evalVariant book cv src ult o₂ v with
      | none => rw [ha, hb] at h; simp [eraseAtt] at h
      | some rb₂ =>
        obtain ⟨r₂, brk₂⟩ := rb₂
        rw [ha, hb] at h
        simp only [eraseAtt, Option.map_some', Option.some.injEq, Prod.mk.injEq] at h
        simp only [tryQuotes]
        rw [ha, hb, ← h.2]
        by_cases hbrk : brk = true
        · simp only [hbrk, if_true]
          show some (eraseJR r) = some (eraseJR r₂)
          rw [h.1]
        · simp only [hbrk, Bool.false_eq_true, if_false]  -- may need eq_false conversion
          exact ih v'

theorem eraseRes_verseAttempt_occ (l : Lookups) (book chapter strip : String)
    (o₁ o₂ : String) (v : Option Int) :
    eraseRes (verseAttempt l book chapter strip o₁ v) =
      eraseRes (verseAttempt l book chapter strip o₂ v) := by
  unfold verseAttempt
  cases hq : quotesToTryOf strip with
  | nil => rfl
  | cons q qs => exact eraseRes_tryQuotes_occ book (cvString chapter v) _ _ o₁ o₂ qs q

theorem eraseOut_verseLoop_occ (l : Lookups) (book chapter strip : String)
    (o₁ o₂ : String) (r₁ r₂ : TSVRecord) :
    ∀ vs, eraseOut (verseLoop l book chapter strip o₁ r₁ vs) =
      eraseOut (verseLoop l book chapter strip o₂ r₂ vs) := by
  intro vs
  induction vs with
  | nil => rfl
  | cons v vs ih =>
    have h := eraseRes_verseAttempt_occ l book chapter strip o₁ o₂ v
    cases ha : verseAttempt l book chapter strip o₁ v with
    | none =>
      rw [ha] at h
      have hb : verseAttempt l book chapter strip o₂ v = none := eraseRes_eq_none.mp h.symm
      rw [verseLoop, verseLoop, ha, hb]
    | some jr =>
      cases jr with
      | data ws =>
        rw [ha] at h
        have hb : verseAttempt l book chapter strip o₂ v = some (JSResult.data ws) :=
          eraseRes_eq_some_data.mp (by rw [← h]; rfl)
        rw [verseLoop, verseLoop, ha, hb]
        rfl
      | error m =>
        rw [ha] at h
        obtain ⟨m₂, hb⟩ := eraseRes_eq_some_err.mp (by rw [← h]; rfl)
        cases vs with
        | nil => rw [verseLoop, verseLoop, ha, hb]; rfl
        | cons a as =>
          rw [verseLoop_cons_error l book chapter strip o₁ r₁ v (a :: as) m ha (by simp),
            verseLoop_cons_error l book chapter strip o₂ r₂ v (a :: as) m₂ hb (by simp)]
          exact ih

/-- Claim C9: the resolution outcome of a processed row — the rewritten
quote, the pass/fail shape, even whether the invocation crashes — is
independent of the row's (non-empty) occurrence field; occurrence flows only
into diagnostic strings and is passed through on the row itself. -/
theorem C9_occurrence_independence (l : Lookups) (book : String) (r : TSVRecord)
    (o₁ o₂ : String) (h₁ : o₁ ≠ "") (h₂ : o₂ ≠ "") :
    eraseOut (processRecord l book { r with occurrence := o₁ }) =
      eraseOut (processRecord l book { r with occurrence := o₂ }) := by
  have e₁ : (o₁ == "") = false := beq_eq_false_iff_ne.mpr h₁
  have e₂ : (o₂ == "") = false := beq_eq_false_iff_ne.mpr h₂
  have hp : isPassthrough { r with occurrence := o₁ } =
      isPassthrough { r with occurrence := o₂ } := by
    show (r.ref == "" || jsTrim r.quote == "" || o₁ == ""
        || r.ref == "Reference" || containsHebrewOrGreek r.quote) =
      (r.ref == "" || jsTrim r.quote == "" || o₂ == ""
        || r.ref == "Reference" || containsHebrewOrGreek r.quote)
    rw [e₁, e₂]
  cases hpv : isPassthrough { r with occurrence := o₂ } with
  | true =>
    have hp1 : isPassthrough { r with occurrence := o₁ } = true := hp.trans hpv
    unfold processRecord
    rw [hp1, hpv]
    rfl
  | false =>
    have hp1 : isPassthrough { r with occurrence := o₁ } = false := hp.trans hpv
    unfold processRecord
    rw [hp1, hpv]
    simp only [Bool.false_eq_true, if_false]
    show eraseOut
        (match (jsSplitChar ':' r.ref).get? 1 with
          | none => none
          | some verseRef =>
            verseLoop l book ((jsSplitChar ':' r.ref).getD 0 "")
              (replaceFirst r.quote "QUOTE_NOT_FOUND: " "") o₁
              (setQuote { r with occurrence := o₁ }
                (replaceFirst r.quote "QUOTE_NOT_FOUND: " ""))
              (expandVerses verseRef)) =
      eraseOut
        (match (jsSplitChar ':' r.ref).get? 1 with
          | none => none
          | some verseRef =>
            verseLoop l book ((jsSplitChar ':' r.ref).getD 0 "")
              (replaceFirst r.quote "QUOTE_NOT_FOUND: " "") o₂
              (setQuote { r with occurrence := o₂ }
                (replaceFirst r.quote "QUOTE_NOT_FOUND: " ""))
              (expandVerses verseRef))
    cases hvr : (jsSplitChar ':' r.ref).get? 1 with
    | none => rfl
    | some vr =>
      exact eraseOut_verseLoop_occ l book ((jsSplitChar ':' r.ref).getD 0 "")
        (replaceFirst r.quote "QUOTE_NOT_FOUND: " "") o₁ o₂ _ _ (expandVerses vr)

/-- Witness for claim C9: two rows identical except for occurrence `"1"`
versus `"2"` yield the same rewritten quote and the same number of recorded
errors. -/
theorem C9_occurrence_independence_witness :
    eraseOut (processRecord emptyLookups "GEN" ⟨"2:1", "foo", "1", "id", []⟩) =
      eraseOut (processRecord emptyLookups "GEN" ⟨"2:1", "foo", "2", "id", []⟩) :=
  C9_occurrence_independence emptyLookups "GEN" ⟨"2:1", "foo", "1", "id", []⟩ "1" "2"
    (by decide) (by decide)

theorem cleanQuote_no_amp (q : String) : '&' ∉ (cleanQuoteOf q).data := by
  intro hmem
  unfold cleanQuoteOf at hmem
  simp only [List.mem_filter, List.mem_map] at hmem
  obtain ⟨⟨c, -, hc⟩, -⟩ := hmem
  by_cases h : (c == '&') = true
  · rw [if_pos h] at hc
    exact absurd hc (by decide)
  · rw [if_neg h] at hc
    rw [hc] at h
    exact h (by decide)

theorem cleanQuote_has_ell (q : String) (h : '&' ∈ q.data) :
    '…' ∈ (cleanQuoteOf q).data := by
  unfold cleanQuoteOf
  simp only [List.mem_filter, List.mem_map]
  exact ⟨⟨'&', h, by decide⟩, by decide⟩

theorem cleanQuote_ne (q : String) (h : '&' ∈ q.data) : (q == cleanQuoteOf q) = false := by
  by_cases he : q = cleanQuoteOf q
  · exact absurd (he ▸ h) (cleanQuote_no_amp q)
  · exact beq_eq_false_iff_ne.mpr he

/-- Claim C10 (amended): every ampersand in the quote is rewritten to the
canonical ellipsis in the *cleaned* quote (which therefore contains an
ellipsis and no ampersand), and the cleaned quote heads the variant list with
its ellipsis-part list variant following — but the *raw* quote containing the
literal `&` is kept as the second string variant, so it can still be matched
as literal text (the counterexample). -/
theorem C10_amp_normalization (q : String) (h : '&' ∈ q.data) :
    '&' ∉ (cleanQuoteOf q).data ∧ '…' ∈ (cleanQuoteOf q).data ∧
      ∃ rest, quotesToTryOf q =
        QVar.str (cleanQuoteOf q) :: QVar.str q ::
          QVar.parts (ellSplit (cleanQuoteOf q)) :: QVar.parts (ellSplit q) :: rest := by
  refine ⟨cleanQuote_no_amp q, cleanQuote_has_ell q h, ?_⟩
  have hne : (q == cleanQuoteOf q) = false := cleanQuote_ne q h
  have hell : (cleanQuoteOf q).data.contains '…' = true :=
    List.elem_eq_true_of_mem (cleanQuote_has_ell q h)
  refine ⟨if cleanQuoteOf q == upFirst (cleanQuoteOf q) then []
    else QVar.str (upFirst (cleanQuoteOf q)) ::
      (if (upFirst (cleanQuoteOf q)).data.contains '…' then
        [QVar.parts (ellSplit (upFirst (cleanQuoteOf q)))] else []), ?_⟩
  unfold quotesToTryOf
  dsimp only
  rw [hne, hell]
  simp

/-- Witness for claim C10 at the quote `"a & b"`. -/
theorem C10_amp_normalization_witness :
    '&' ∉ (cleanQuoteOf "a & b").data ∧ '…' ∈ (cleanQuoteOf "a & b").data ∧
      ∃ rest, quotesToTryOf "a & b" =
        QVar.str (cleanQuoteOf "a & b") :: QVar.str "a & b" ::
          QVar.parts (ellSplit (cleanQuoteOf "a & b")) :: QVar.parts (ellSplit "a & b")
            :: rest :=
  C10_amp_normalization "a & b" (by decide)

/-- Counterexample for claim C10 as stated: with a gloss verse containing a
word-like `&` token, the row `"a & b"` is committed from the *raw* string
variant — the quote is matched as literal text containing `&` and the result
`"α"` is not the ` & `-join `"α & α"` that independent segment resolution
(the parts variant, shown succeeding) produces. -/
theorem C10_counterexample :
    (processRecord ampLookups "TIT" ⟨"3:1", "a & b", "1", "i", []⟩).map
        (fun p => p.1.map (fun rec => rec.quote)) = some ["α"] ∧
      evalVariant "TIT" "3:1" (ampLookups.source "3:1")
          ((ampLookups.ult "3:1").map (fun ts =>
            (ts.filter (fun t => t.subType == "wordLike")).map
              (fun t => WTok.mk t.payload t.scopes))) "1" (QVar.parts ["a", "b"])
        = some (JSResult.data ["α & α"], true) ∧
      ("α" : String) ≠ "α & α" := by
  refine ⟨by decide, by decide, by decide⟩

end Tsv7
